import Mathlib

/-!
Shallow embedding of the fetch/decode core of the Processor repository:
the bit-packed instruction codec, the paged memory model, and the decode
cache. Machine integers are modelled as Nat with explicit masking or
modular reduction where the source relies on fixed-width behaviour.
-/

-- region: instruction codec bit masks (src/src/instruction/src/lib.rs)

def DRIVER0_EXTENSION_MASK : Nat := 0b11111100
def DRIVER0_SYNCHRONISE_MASK : Nat := 0b00000010
def DRIVER0_DYNAMIC_DESTINATION : Nat := 0b00000001
def DRIVER1_OPERATION_MASK : Nat := 0b11110000
def DRIVER1_ADDRESSING_MASK : Nat := 0b00001100
def DRIVER1_ADDRESSING_PARAMETER_MASK : Nat := 0b00000011
def DATA_WIDTH_MASK : Nat := 0b11000000
def DATA_STATIC_OPERAND_MASK : Nat := 0b00111000
def DATA_DYNAMIC_OPERAND_MASK : Nat := 0b00000111

/-- Bitwise complement on 8-bit values: the Rust `!mask` on a `u8`. -/
def compl8 (mask : Nat) : Nat := 255 ^^^ mask

/-- Structured data from the two driver header bytes. Fields are u8 values
modelled as Nat; booleans stay Bool. -/
structure Driver where
  extension : Nat
  operation : Nat
  synchronise : Bool
  dynamic_destination : Bool
  addressing : Nat
  immediate_exponent : Nat
deriving DecidableEq, Repr

def Driver.extract_extension (driver0 : Nat) : Nat :=
  (DRIVER0_EXTENSION_MASK &&& driver0) >>> 2

def Driver.set_extension (driver0 extension : Nat) : Nat :=
  (compl8 DRIVER0_EXTENSION_MASK &&& driver0) ||| ((0b00111111 &&& extension) <<< 2)

def Driver.extract_synchronise (driver0 : Nat) : Bool :=
  (DRIVER0_SYNCHRONISE_MASK &&& driver0) >>> 1 = 1

def Driver.set_synchronise (driver0 : Nat) (lock : Bool) : Nat :=
  (compl8 DRIVER0_SYNCHRONISE_MASK &&& driver0) ||| ((if lock then 1 else 0) <<< 1)

def Driver.extract_dynamic_destination (driver0 : Nat) : Bool :=
  DRIVER0_DYNAMIC_DESTINATION &&& driver0 = 1

def Driver.set_dynamic_destination (driver0 : Nat) (dynamic_destination : Bool) : Nat :=
  (compl8 DRIVER0_DYNAMIC_DESTINATION &&& driver0) ||| (if dynamic_destination then 1 else 0)

def Driver.extract_operation (driver1 : Nat) : Nat :=
  (DRIVER1_OPERATION_MASK &&& driver1) >>> 4

def Driver.set_operation (driver1 operation : Nat) : Nat :=
  (compl8 DRIVER1_OPERATION_MASK &&& driver1) ||| ((0b00001111 &&& operation) <<< 4)

def Driver.extract_addressing (driver1 : Nat) : Nat :=
  (DRIVER1_ADDRESSING_MASK &&& driver1) >>> 2

def Driver.set_addressing (driver1 addressing : Nat) : Nat :=
  (compl8 DRIVER1_ADDRESSING_MASK &&& driver1) ||| ((0b00000011 &&& addressing) <<< 2)

def Driver.extract_immediate_exponent (driver1 : Nat) : Nat :=
  DRIVER1_ADDRESSING_PARAMETER_MASK &&& driver1

def Driver.set_immediate_exponent (driver1 immediate_exponent : Nat) : Nat :=
  (compl8 DRIVER1_ADDRESSING_PARAMETER_MASK &&& driver1) ||| (0b00000011 &&& immediate_exponent)

/-- Decode the two driver header bytes, mirroring `Driver::from_encoded`. -/
def Driver.from_encoded (bytes : Nat × Nat) : Driver :=
  { extension := Driver.extract_extension bytes.1
    operation := Driver.extract_operation bytes.2
    synchronise := Driver.extract_synchronise bytes.1
    dynamic_destination := Driver.extract_dynamic_destination bytes.1
    addressing := Driver.extract_addressing bytes.2
    immediate_exponent := Driver.extract_immediate_exponent bytes.2 }

/-- Encode the driver back into the two header bytes, mirroring `Driver::encode`. -/
def Driver.encode (self : Driver) : Nat × Nat :=
  let driver0a := Driver.set_extension 0 self.extension
  let driver0b := Driver.set_synchronise driver0a self.synchronise
  let driver0 := Driver.set_dynamic_destination driver0b self.dynamic_destination
  let driver1a := Driver.set_operation 0 self.operation
  let driver1b := Driver.set_addressing driver1a self.addressing
  let driver1 := Driver.set_immediate_exponent driver1b self.immediate_exponent
  (driver0, driver1)

/-- The operand the operation result is stored through. -/
inductive Destination where
  | Static
  | Dynamic
deriving DecidableEq, Repr

/-- Data byte structure, mirroring `RawData`. -/
structure RawData where
  width : Nat
  x_static : Nat
  x_dynamic : Nat
deriving DecidableEq, Repr

def RawData.extract_width (data : Nat) : Nat :=
  (DATA_WIDTH_MASK &&& data) >>> 6

def RawData.set_width (data width : Nat) : Nat :=
  (compl8 DATA_WIDTH_MASK &&& data) ||| ((0b00000011 &&& width) <<< 6)

def RawData.extract_static (data : Nat) : Nat :=
  (DATA_STATIC_OPERAND_MASK &&& data) >>> 3

def RawData.set_static (data x_static : Nat) : Nat :=
  (compl8 DATA_STATIC_OPERAND_MASK &&& data) ||| ((0b00000111 &&& x_static) <<< 3)

def RawData.extract_dynamic (data : Nat) : Nat :=
  DATA_DYNAMIC_OPERAND_MASK &&& data

def RawData.set_dynamic (data dynamic : Nat) : Nat :=
  (compl8 DATA_DYNAMIC_OPERAND_MASK &&& data) ||| (0b00000111 &&& dynamic)

/-- Decode the data byte, mirroring `RawData::from_encoded` exactly. The source
fills the `x_dynamic` field with `RawData::extract_static(encoded)`. -/
def RawData.from_encoded (encoded : Nat) : RawData :=
  { width := RawData.extract_width encoded
    x_static := RawData.extract_static encoded
    x_dynamic := RawData.extract_static encoded }

/-- Encode the data byte, mirroring `RawData::encode`. -/
def RawData.encode (self : RawData) : Nat :=
  let encoded0 := RawData.set_width 0 self.width
  let encoded1 := RawData.set_static encoded0 self.x_static
  RawData.set_dynamic encoded1 self.x_dynamic

-- region: absolute number types (src/src/instruction/src/absolute.rs)

def BYTE_SIZE : Nat := 1
def WORD_SIZE : Nat := 2
def DUAL_SIZE : Nat := 4
def QUAD_SIZE : Nat := 8

/-- The enum `absolute::Type` of the instruction crate. -/
inductive AbsoluteType where
  | Byte
  | Word
  | Dual
  | Quad
deriving DecidableEq, Repr

/-- Mirror of `absolute::Type::from_bytes`. -/
def AbsoluteType.from_bytes (bytes : Nat) : Option AbsoluteType :=
  if bytes = BYTE_SIZE then some AbsoluteType.Byte
  else if bytes = WORD_SIZE then some AbsoluteType.Word
  else if bytes = DUAL_SIZE then some AbsoluteType.Dual
  else if bytes = QUAD_SIZE then some AbsoluteType.Quad
  else none

/-- Mirror of `absolute::Type::from_exponent`. The source computes
`2 ^ exponent` in Rust, where the caret is bitwise xor, not exponentiation;
the embedding keeps that xor. -/
def AbsoluteType.from_exponent (exponent : Nat) : Option AbsoluteType :=
  AbsoluteType.from_bytes (2 ^^^ exponent)

-- region: dynamic number sizes (src/src/math/dynamic_number/size.rs)

/-- The enum `Size` of the dynamic number module. -/
inductive Size where
  | U8
  | U16
  | U32
  | U64
deriving DecidableEq, Repr

/-- Mirror of `Size::from_power`: only the low 2 bits of the argument are used. -/
def Size.from_power (size : Nat) : Size :=
  match size &&& 0b00000011 with
  | 0 => Size.U8
  | 1 => Size.U16
  | 2 => Size.U32
  | _ => Size.U64

/-- Mirror of `Size::to_power`. -/
def Size.to_power (self : Size) : Nat :=
  match self with
  | Size.U8 => 0
  | Size.U16 => 1
  | Size.U32 => 2
  | Size.U64 => 3

-- region: memory model (src/src/emulator/memory.rs)

def WORD_ALIGNED_MASK : Nat := 0b1
def DUAL_ALIGNED_MASK : Nat := 0b11
def QUAD_ALIGNED_MASK : Nat := 0b111

def PAGE_ITEM_BITS : Nat := 13

/-- Mirror of `PAGE_IDENTIFIER_MASK`, the wrapping `u64::MAX << 13`. -/
def PAGE_IDENTIFIER_MASK : Nat := ((2 ^ 64 - 1) <<< PAGE_ITEM_BITS) % 2 ^ 64

/-- Mirror of `PAGE_ITEM_MASK`, the low 13 bits. -/
def PAGE_ITEM_MASK : Nat := (2 ^ 64 - 1) >>> (64 - PAGE_ITEM_BITS)

/-- Modelled from the spec: the enum `crate::number::Size` used by the memory
module is not under src (only superseded drafts of it are); the spec gives a
closed set of four width quantizations of 8, 16, 32 and 64 bits. -/
inductive NumberSize where
  | Byte
  | Word
  | Dual
  | Quad
deriving DecidableEq, Repr

/-- Modelled from the spec: byte length of a size, 1, 2, 4 or 8. -/
def NumberSize.size (self : NumberSize) : Nat :=
  match self with
  | NumberSize.Byte => 1
  | NumberSize.Word => 2
  | NumberSize.Dual => 4
  | NumberSize.Quad => 8

/-- Modelled from the spec: the tagged number `crate::number::Number` returned
by sized memory reads, a sized unsigned integer tagged with the frame size. -/
inductive Number where
  | Byte : Nat → Number
  | Word : Nat → Number
  | Dual : Nat → Number
  | Quad : Nat → Number
deriving DecidableEq, Repr

/-- Numeric payload of a tagged number, the `u64::from` view. -/
def Number.quad (self : Number) : Nat :=
  match self with
  | Number.Byte v => v
  | Number.Word v => v
  | Number.Dual v => v
  | Number.Quad v => v

/-- Little-endian byte list of a natural number, n bytes long; models the Rust
`to_le_bytes` family. -/
def leBytes : Nat → Nat → List Nat
  | 0, _ => []
  | n + 1, v => v % 256 :: leBytes n (v / 256)

/-- Value of a little-endian byte list; models the Rust `from_le_bytes` family. -/
def fromLE : List Nat → Nat
  | [] => 0
  | b :: rest => b + 256 * fromLE rest

/-- Modelled from the spec: `Number::quad_buffer`, the 8 little-endian bytes of
the value widened to 64 bits. -/
def Number.quad_buffer (self : Number) : List Nat :=
  leBytes 8 self.quad

/-- Modelled from the spec: tag a value with a frame size, as the sized read
paths of `Memory::get` do with `from_le_bytes`. -/
def Number.with_size (size : NumberSize) (value : Nat) : Number :=
  match size with
  | NumberSize.Byte => Number.Byte value
  | NumberSize.Word => Number.Word value
  | NumberSize.Dual => Number.Dual value
  | NumberSize.Quad => Number.Quad value

/-- An address frame: a memory address plus the frame size. -/
structure Frame where
  address : Nat
  size : NumberSize
deriving DecidableEq, Repr

/-- Mirror of `Frame::is_aligned`. -/
def Frame.is_aligned (self : Frame) : Bool :=
  let masked :=
    match self.size with
    | NumberSize.Byte => 0
    | NumberSize.Word => self.address &&& WORD_ALIGNED_MASK
    | NumberSize.Dual => self.address &&& DUAL_ALIGNED_MASK
    | NumberSize.Quad => self.address &&& QUAD_ALIGNED_MASK
  masked = 0

/-- Mirror of `Frame::max_address`. -/
def Frame.max_address (self : Frame) : Nat :=
  self.address + self.size.size

/-- Mirror of `<u64 as Address>::extract_item`. -/
def extract_item (self : Nat) : Nat :=
  PAGE_ITEM_MASK &&& self

/-- Mirror of `<u64 as Address>::set_item`. -/
def set_item (self virtualItem : Nat) : Nat :=
  (self &&& PAGE_IDENTIFIER_MASK) ||| (virtualItem &&& PAGE_ITEM_MASK)

/-- Mirror of `<u64 as Address>::extract_page`. -/
def extract_page (self : Nat) : Nat :=
  (PAGE_IDENTIFIER_MASK &&& self) >>> PAGE_ITEM_BITS

/-- Mirror of `<u64 as Address>::offset_page`; the u64 shift wraps modulo 2^64. -/
def offset_page (self : Nat) : Nat :=
  (self <<< PAGE_ITEM_BITS) % 2 ^ 64

/-- Error type of frame validated memory access, mirror of `GetError`. -/
inductive GetError where
  | UnalignedFrame
  | OutOfBounds
  | PageFault
deriving DecidableEq, Repr

deriving instance DecidableEq for Except

/-- The memory structure. The owned byte buffer is a list of byte values and
the page table, a HashMap in the source with unique keys and no ordering
semantics, is modelled as its lookup function. -/
structure Memory where
  bytes : List Nat
  max_address : Option Nat
  pages : Nat → Option Nat

/-- Mirror of `Memory::translate_virtual`. -/
def Memory.translate_virtual (self : Memory) (virtualAddress : Nat) : Option Nat :=
  let virtual_page := extract_page virtualAddress
  match self.pages virtual_page with
  | none => none
  | some mapped =>
    let physical_page := offset_page mapped
    let virtual_item := extract_item virtualAddress
    some (set_item physical_page virtual_item)

/-- Mirror of `Memory::process_test_frame`: alignment first, then translation
when the access is virtual, then the configured bound. Returns the frame with
its address translated, modelling the in-place mutation of the source. -/
def Memory.process_test_frame (self : Memory) (frame : Frame) (translate : Bool) :
    Except GetError Frame :=
  if frame.is_aligned = false then Except.error GetError.UnalignedFrame
  else
    let translated : Except GetError Frame :=
      if translate then
        match self.translate_virtual frame.address with
        | some value => Except.ok { frame with address := value }
        | none => Except.error GetError.PageFault
      else Except.ok frame
    match translated with
    | Except.error e => Except.error e
    | Except.ok f =>
      match self.max_address with
      | some max_address =>
        if f.max_address > max_address then Except.error GetError.OutOfBounds
        else Except.ok f
      | none => Except.ok f

/-- Modelled from the spec: `read_bytes_into_buffer` lives in a utility module
that is not under src; it copies as many of the requested bytes as the buffer
holds from the offset on and reports the count copied, so a short underlying
buffer access is visible as a short count. -/
def read_bytes_into_buffer (bytes : List Nat) (offset len : Nat) : Nat :=
  min len (bytes.length - offset)

/-- Mirror of `Memory::get`: validate the frame, then read the frame size in
little-endian bytes at the possibly translated address. -/
def Memory.get (self : Memory) (frame : Frame) (isVirtual : Bool) :
    Except GetError Number :=
  match self.process_test_frame frame isVirtual with
  | Except.error e => Except.error e
  | Except.ok f =>
    let n := f.size.size
    if read_bytes_into_buffer self.bytes f.address n = n then
      Except.ok (Number.with_size f.size (fromLE ((self.bytes.drop f.address).take n)))
    else Except.error GetError.OutOfBounds

/-- Mirror of `Memory::set`: validate the frame, then write the low frame size
bytes of the value. The byte sized path writes a single truncated byte; the
other paths write the leading slice of the quad buffer. The missing utility
`write_buffer_into_bytes` is modelled from the spec as a bounds checked
in-place overwrite. -/
def Memory.set (self : Memory) (frame : Frame) (isVirtual : Bool) (value : Number) :
    Except GetError Memory :=
  match self.process_test_frame frame isVirtual with
  | Except.error e => Except.error e
  | Except.ok f =>
    match f.size with
    | NumberSize.Byte =>
      if f.address < self.bytes.length then
        Except.ok { self with bytes := self.bytes.set f.address (value.quad % 256) }
      else Except.error GetError.OutOfBounds
    | s =>
      let buffer := value.quad_buffer.take s.size
      let written := self.bytes.take f.address ++ buffer ++
        self.bytes.drop (f.address + buffer.length)
      if f.address + buffer.length ≤ self.bytes.length then
        Except.ok { self with bytes := written }
      else Except.error GetError.OutOfBounds

-- region: decode cache (spec section 4.3; only its test is under src)

/-- Modelled from the spec: a decode cache entry, keyed by base address, holding
an immutable instruction copy and a remaining lifetime. The cache
implementation itself is not under src; only its test is. -/
structure DecodeCacheEntry (α : Type) where
  base_address : Nat
  instruction : α
  lifetime : Nat
deriving DecidableEq, Repr

/-- Modelled from the spec: the decode cache, a sequence of entries plus the
initial lifetime and the populate chunk size. -/
structure DecodeCache (α : Type) where
  decoded : List (DecodeCacheEntry α)
  initial_lifetime : Nat
  chunk_size : Nat
deriving DecidableEq, Repr

/-- Modelled from the spec: `append` ages every existing entry's lifetime down
by exactly one, then inserts a new entry for the address with the initial
lifetime. -/
def DecodeCache.append (self : DecodeCache α) (address : Nat) (instruction : α) :
    DecodeCache α :=
  { self with decoded :=
      self.decoded.map (fun e => { e with lifetime := e.lifetime - 1 }) ++
      [{ base_address := address, instruction := instruction,
         lifetime := self.initial_lifetime }] }

/-- Modelled from the spec: `age` decrements every entry's lifetime by one,
flooring at zero, and removes every entry whose lifetime reaches zero. -/
def DecodeCache.age (self : DecodeCache α) : DecodeCache α :=
  let aged := self.decoded.map (fun e => { e with lifetime := e.lifetime - 1 })
  { self with decoded := aged.filter (fun e => e.lifetime ≠ 0) }

/-- Modelled from the spec: `find` is a read-only lookup by base address. -/
def DecodeCache.find (self : DecodeCache α) (address : Nat) : Option α :=
  (self.decoded.find? (fun e => e.base_address = address)).map
    (fun e => e.instruction)

-- region: instruction decoding (src/src/instruction/src/lib.rs)

/-- Operand pair with both the static and the dynamic operand present. -/
structure AllPresent (Dyn : Type) where
  x_static : Nat
  x_dynamic : Dyn
deriving DecidableEq, Repr

/-- The operand combinations of an instruction. -/
inductive Operands (Dyn : Type) where
  | AllPresent : AllPresent Dyn → Operands Dyn
  | Static : Nat → Operands Dyn
  | Dynamic : Dyn → Operands Dyn
deriving DecidableEq, Repr

/-- The instruction data field: operand width, destination choice and the
operand combination. -/
structure Data (Dyn : Type) where
  width : AbsoluteType
  destination : Destination
  operands : Operands Dyn
deriving DecidableEq, Repr

/-- A decoded instruction. The operation extension and the dynamic operand
types are parameters because the operation and operand modules the codec
resolves them against are not under src. -/
structure Instruction (Ext Dyn : Type) where
  operation : Ext
  width : AbsoluteType
  synchronise : Bool
  data : Option (Data Dyn)
deriving DecidableEq, Repr

/-- Modelled from the spec: the closed opcode table and operand grammar that
`Instruction::from_encoded` consults. The operation and operand modules are
not under src, so their behaviour is abstracted: resolving an extension and
operation code pair, the operand-presence predicates of the resolved
operation, and the dynamic operand decoder that may consume further bytes. -/
structure CodecEnv (Ext Dyn : Type) where
  from_codes : Nat → Nat → Option Ext
  expects_operand : Ext → Bool
  expects_all : Ext → Bool
  expects_static : Ext → Bool
  dynamic_from_codes : Nat → Nat → Nat → List Nat → Option Dyn

/-- Mirror of `Instruction::from_encoded` over a byte list stream. Every
failure is collapsed to `none`: stream exhaustion, an unmatched code pair, a
failed dynamic operand decode, and the panicking paths of the source, namely
the two `todo!()` operand branches and the `unwrap` of
`absolute::Type::from_exponent` on the data byte width. -/
def Instruction.from_encoded {Ext Dyn : Type} (env : CodecEnv Ext Dyn)
    (stream : List Nat) : Option (Instruction Ext Dyn) :=
  match stream with
  | byte0 :: byte1 :: rest =>
    let driver := Driver.from_encoded (byte0, byte1)
    match env.from_codes driver.extension driver.operation with
    | none => none
    | some ext =>
      if env.expects_operand ext then
        match rest with
        | [] => none
        | dataByte :: rest2 =>
          let data_raw := RawData.from_encoded dataByte
          let operandsOpt : Option (Operands Dyn) :=
            if env.expects_all ext then
              (env.dynamic_from_codes data_raw.x_dynamic driver.addressing
                driver.immediate_exponent rest2).map
                (fun dyn => Operands.AllPresent
                  { x_static := data_raw.x_static, x_dynamic := dyn })
            else none
          match operandsOpt with
          | none => none
          | some operands =>
            match AbsoluteType.from_exponent data_raw.width with
            | none => none
            | some w =>
              some { operation := ext
                     width := AbsoluteType.Byte
                     synchronise := driver.synchronise
                     data := some { width := w
                                    destination :=
                                      if driver.dynamic_destination then Destination.Dynamic
                                      else Destination.Static
                                    operands := operands } }
      else
        some { operation := ext
               width := AbsoluteType.Byte
               synchronise := driver.synchronise
               data := none }
  | _ => none

-- region: concrete fixtures used by witnesses and scenario claims

/-- A four byte buffer of zeros with no bound and an empty page table. -/
def memZeros4 : Memory :=
  { bytes := [0, 0, 0, 0], max_address := none, pages := fun _ => none }

/-- An eight byte buffer holding the little-endian encoding of 1001. -/
def mem1001 : Memory :=
  { bytes := [233, 3, 0, 0, 0, 0, 0, 0], max_address := none, pages := fun _ => none }

/-- Page table mapping virtual pages 10, 9 and 8 to physical pages 200, 199
and 198, as in the translation scenario. -/
def memPaged : Memory :=
  { bytes := []
    max_address := none
    pages := fun n =>
      if n = 10 then some 200
      else if n = 9 then some 199
      else if n = 8 then some 198
      else none }

/-- An eight byte scratch buffer for the set and get round trip witness. -/
def memScratch : Memory :=
  { bytes := [0, 0, 0, 0, 0, 0, 0, 0], max_address := none, pages := fun _ => none }

/-- The decode cache of the aging scenario: initial lifetime 4, entries
appended at address 0 then at address 2, payloads 7 and 9. -/
def cacheC7 : DecodeCache Nat :=
  ((DecodeCache.mk ([] : List (DecodeCacheEntry Nat)) 4 0).append 0 7).append 2 9

/-- A one-operation codec environment over trivial extension and dynamic
operand types: every code pair resolves and the operation expects no
operands. -/
def envUnit : CodecEnv Unit Unit :=
  { from_codes := fun _ _ => some ()
    expects_operand := fun _ => false
    expects_all := fun _ => false
    expects_static := fun _ => false
    dynamic_from_codes := fun _ _ _ _ => none }

/-- The instruction the trivial codec environment decodes from two zero bytes. -/
def instrUnit : Instruction Unit Unit :=
  { operation := (), width := AbsoluteType.Byte, synchronise := false, data := none }

-- region: theorems

/-- Claim C1: the claimed encode and decode round trip law fails on the code at
the data byte. Decoding data byte 10 and re-encoding yields 9, and the raw
data value with static field 1 and dynamic field 2 encodes to a byte that
decodes to a different value, because `RawData::from_encoded` fills the
dynamic field from the static bit range. -/
theorem c1_round_trip_fails_at_data_byte :
    RawData.encode (RawData.from_encoded 10) = 9
    ∧ RawData.encode (RawData.from_encoded 10) ≠ 10
    ∧ RawData.from_encoded (RawData.encode (RawData.mk 0 1 2)) = RawData.mk 0 1 1
    ∧ RawData.mk 0 1 1 ≠ RawData.mk 0 1 2 := by decide

/-- Claim C2: decoding data byte 10, whose bits 5-3 hold 1 and bits 2-0 hold 2,
yields width 0 and static field 1 as claimed but dynamic field 1 instead of
the claimed 2: the source extracts the dynamic field with `extract_static`. -/
theorem c2_data_byte_decode_bug :
    RawData.from_encoded 10 = RawData.mk 0 1 1
    ∧ RawData.extract_dynamic 10 = 2 := by decide

/-- Claim C3: `Size::from_power` maps exponents 0, 1, 2, 3 to the four sizes
with only the low 2 bits significant, as claimed, but
`absolute::Type::from_exponent` does not: the Rust caret is xor, so exponent 0
gives the 16-bit type, exponents 1 and 2 give nothing, and 3 gives 8-bit. -/
theorem c3_exponent_decode_bug :
    Size.from_power 0 = Size.U8
    ∧ Size.from_power 1 = Size.U16
    ∧ Size.from_power 2 = Size.U32
    ∧ Size.from_power 3 = Size.U64
    ∧ Size.from_power 62 = Size.U32
    ∧ AbsoluteType.from_exponent 0 = some AbsoluteType.Word
    ∧ AbsoluteType.from_exponent 1 = none
    ∧ AbsoluteType.from_exponent 2 = none
    ∧ AbsoluteType.from_exponent 3 = some AbsoluteType.Byte := by decide

/-- Claim C7: appending decrements every existing lifetime by one and inserts
the new entry with the initial lifetime at the end; concretely with initial
lifetime 4, appending at addresses 0 then 2 leaves lifetimes 3 and 4 in
insertion order, and three agings evict the first entry while the second
survives. -/
theorem c7_append_aging :
    (∀ (α : Type) (c : DecodeCache α) (address : Nat) (instruction : α),
      (c.append address instruction).decoded =
        c.decoded.map (fun e => { e with lifetime := e.lifetime - 1 }) ++
          [DecodeCacheEntry.mk address instruction c.initial_lifetime])
    ∧ cacheC7.decoded.map (fun e => e.lifetime) = [3, 4]
    ∧ cacheC7.age.age.age.find 0 = none
    ∧ cacheC7.age.age.age.find 2 = some 9 := by
  refine ⟨fun α c address instruction => rfl, by decide, by decide, by decide⟩

/-- Claim C9 counterexample: on the eight byte buffer holding the little-endian
encoding of 1001 the byte-sized read at address 1 returns 3, which is the
second byte of that encoding; the third byte of the encoding is 0, so the
claim misidentifies the byte returned. -/
theorem c9_third_byte_counterexample :
    mem1001.bytes = leBytes 8 1001
    ∧ mem1001.get (Frame.mk 1 NumberSize.Byte) false = Except.ok (Number.Byte 3)
    ∧ (leBytes 8 1001)[2]? = some 0
    ∧ (Except.ok (Number.Byte 3) : Except GetError Number) ≠ Except.ok (Number.Byte 0) := by
  decide

/-- Claim C9 amended: the 32-bit read on four zero bytes returns 0, the 64-bit
read on the little-endian encoding of 1001 returns 1001, and the byte read at
address 1 returns the second byte of that encoding, which is 3. -/
theorem c9_sized_access_amended :
    memZeros4.get (Frame.mk 0 NumberSize.Dual) false = Except.ok (Number.Dual 0)
    ∧ mem1001.get (Frame.mk 0 NumberSize.Quad) false = Except.ok (Number.Quad 1001)
    ∧ mem1001.get (Frame.mk 1 NumberSize.Byte) false = Except.ok (Number.Byte 3)
    ∧ (leBytes 8 1001)[1]? = some 3 := by
  decide

/-- Masking with a low-bit mask is reduction modulo the matching power of two. -/
theorem and_one_eq_mod (n : Nat) : n &&& 1 = n % 2 := by
  simpa using Nat.and_pow_two_sub_one_eq_mod n 1

/-- Masking with the two low bits is reduction modulo four. -/
theorem and_three_eq_mod (n : Nat) : n &&& 3 = n % 4 := by
  simpa using Nat.and_pow_two_sub_one_eq_mod n 2

/-- Masking with the three low bits is reduction modulo eight. -/
theorem and_seven_eq_mod (n : Nat) : n &&& 7 = n % 8 := by
  simpa using Nat.and_pow_two_sub_one_eq_mod n 3

/-- Masking with the thirteen low bits is reduction modulo the page size. -/
theorem and_item_mask_eq_mod (n : Nat) : n &&& PAGE_ITEM_MASK = n % 2 ^ 13 :=
  Nat.and_pow_two_sub_one_eq_mod n 13

/-- Claim C8: a frame is aligned exactly when its address is divisible by the
byte length of its size, and a byte sized frame at the same address is always
aligned. -/
theorem c8_is_aligned_iff (frame : Frame) :
    (frame.is_aligned = true ↔ frame.address % frame.size.size = 0)
    ∧ (Frame.mk frame.address NumberSize.Byte).is_aligned = true := by
  constructor
  · rcases frame with ⟨address, size⟩
    cases size <;>
      simp [Frame.is_aligned, NumberSize.size, WORD_ALIGNED_MASK, DUAL_ALIGNED_MASK,
        QUAD_ALIGNED_MASK, and_one_eq_mod, and_three_eq_mod, and_seven_eq_mod,
        Nat.mod_one]
  · simp [Frame.is_aligned]

/-- Claim C4: frame validation checks alignment first, then translation when
the access is virtual, then the configured bound, and reports the first
violated condition; a byte sized frame at any address passes the alignment
check. -/
theorem c4_validation_order (m : Memory) (frame : Frame) (virt : Bool) :
    (m.process_test_frame frame virt = Except.error GetError.UnalignedFrame ↔
      frame.is_aligned = false)
    ∧ (m.process_test_frame frame virt = Except.error GetError.PageFault ↔
      frame.is_aligned = true ∧ virt = true ∧ m.translate_virtual frame.address = none)
    ∧ (m.process_test_frame frame virt = Except.error GetError.OutOfBounds ↔
      frame.is_aligned = true ∧
      (∃ a, (if virt then m.translate_virtual frame.address else some frame.address) = some a ∧
        ∃ ma, m.max_address = some ma ∧ a + frame.size.size > ma))
    ∧ (Frame.mk frame.address NumberSize.Byte).is_aligned = true := by
  have hbyte : (Frame.mk frame.address NumberSize.Byte).is_aligned = true := by
    simp [Frame.is_aligned]
  unfold Memory.process_test_frame
  cases hal : frame.is_aligned with
  | false => exact ⟨by simp, by simp [hal], by simp [hal], hbyte⟩
  | true =>
    cases virt with
    | false =>
      cases hma : m.max_address with
      | none => exact ⟨by simp [hal], by simp [hal], by simp [hal, hma], hbyte⟩
      | some ma =>
        by_cases hb : frame.max_address > ma
        · refine ⟨by simp [hal, hma, hb], by simp [hal, hma, hb], ?_, hbyte⟩
          simp [hal, hma, hb, Frame.max_address] at hb ⊢
        · refine ⟨by simp [hal, hma, hb], by simp [hal, hma, hb], ?_, hbyte⟩
          simp [hal, hma, hb, Frame.max_address] at hb ⊢
    | true =>
      cases htr : m.translate_virtual frame.address with
      | none => exact ⟨by simp [hal, htr], by simp [hal, htr], by simp [hal, htr], hbyte⟩
      | some a =>
        cases hma : m.max_address with
        | none => exact ⟨by simp [hal, htr, hma], by simp [hal, htr, hma],
            by simp [hal, htr, hma], hbyte⟩
        | some ma =>
          by_cases hb : a + frame.size.size > ma
          · refine ⟨?_, ?_, ?_, hbyte⟩ <;>
              simp [hal, htr, hma, hb, Frame.max_address]
          · refine ⟨?_, ?_, ?_, hbyte⟩ <;>
              simp [hal, htr, hma, hb, Frame.max_address]

/-- The page identifier mask is the fifty-one high bits of a 64-bit word. -/
theorem identifier_mask_shift : PAGE_IDENTIFIER_MASK = (2 ^ 51 - 1) <<< 13 := by decide

/-- Bit membership in the page identifier mask. -/
theorem testBit_identifier_mask (i : Nat) :
    PAGE_IDENTIFIER_MASK.testBit i = (decide (13 ≤ i) && decide (i < 64)) := by
  rw [identifier_mask_shift, Nat.testBit_shiftLeft, Nat.testBit_two_pow_sub_one]
  rcases Nat.lt_or_ge i 13 with h13 | h13
  · simp [Nat.not_le.mpr h13]
  · rcases Nat.lt_or_ge i 64 with h64 | h64
    · have hs : i - 13 < 51 := by omega
      simp [h13, h64, hs]
    · have hs : ¬ i - 13 < 51 := by omega
      simp [h13, hs, Nat.not_lt.mpr h64]

/-- On a 64-bit address, extracting the page identifier is a right shift by
the thirteen item bits. -/
theorem extract_page_eq (a : Nat) (h : a < 2 ^ 64) : extract_page a = a >>> 13 := by
  unfold extract_page PAGE_ITEM_BITS
  apply Nat.eq_of_testBit_eq
  intro i
  rw [Nat.testBit_shiftRight, Nat.testBit_shiftRight, Nat.testBit_and, testBit_identifier_mask]
  rcases Nat.lt_or_ge i 51 with hi | hi
  · have h64 : 13 + i < 64 := by omega
    simp [Nat.le_add_right, h64]
  · have hb : a.testBit (13 + i) = false :=
      Nat.testBit_eq_false_of_lt
        (lt_of_lt_of_le h (Nat.pow_le_pow_right (by norm_num) (by omega)))
    simp [hb]

/-- A page identifier shifted into position is unchanged by the identifier
mask. -/
theorem offset_page_and_mask (p : Nat) :
    offset_page p &&& PAGE_IDENTIFIER_MASK = offset_page p := by
  unfold offset_page PAGE_ITEM_BITS
  apply Nat.eq_of_testBit_eq
  intro i
  rw [Nat.testBit_and, testBit_identifier_mask, Nat.testBit_mod_two_pow, Nat.testBit_shiftLeft]
  rcases Nat.lt_or_ge i 13 with h13 | h13
  · simp [Nat.not_le.mpr h13]
  · rcases Nat.lt_or_ge i 64 with h64 | h64
    · simp [h13, h64]
    · simp [Nat.not_lt.mpr h64]

/-- Bitwise or with a value whose low thirteen bits vanish preserves the low
thirteen bits of the other operand. -/
theorem or_low_mod (x y : Nat) (hx : x % 2 ^ 13 = 0) :
    (x ||| y) % 2 ^ 13 = y % 2 ^ 13 := by
  have hdist : (x ||| y) &&& PAGE_ITEM_MASK =
      (x &&& PAGE_ITEM_MASK) ||| (y &&& PAGE_ITEM_MASK) := by
    rw [Nat.and_comm (x ||| y), Nat.and_or_distrib_left, Nat.and_comm PAGE_ITEM_MASK x,
      Nat.and_comm PAGE_ITEM_MASK y]
  calc (x ||| y) % 2 ^ 13 = (x ||| y) &&& PAGE_ITEM_MASK := (and_item_mask_eq_mod _).symm
    _ = (x &&& PAGE_ITEM_MASK) ||| (y &&& PAGE_ITEM_MASK) := hdist
    _ = x % 2 ^ 13 ||| y % 2 ^ 13 := by rw [and_item_mask_eq_mod, and_item_mask_eq_mod]
    _ = y % 2 ^ 13 := by rw [hx, Nat.zero_or]

/-- The shifted page composed into the address keeps its low thirteen bits
zero. -/
theorem offset_page_mod (p : Nat) : offset_page p % 2 ^ 13 = 0 := by
  unfold offset_page PAGE_ITEM_BITS
  rw [Nat.mod_mod_of_dvd _ (pow_dvd_pow 2 (by norm_num)), Nat.shiftLeft_eq,
    Nat.mul_mod_left]

/-- Claim C5: translation splits a 64-bit address into the page identifier,
the high bits, and the thirteen low item bits; an unmapped virtual page yields
absent, and otherwise the result is the mapped physical page shifted into
position composed with the original item offset, so the low thirteen bits are
preserved. -/
theorem c5_translate_virtual (m : Memory) (a : Nat) (h : a < 2 ^ 64) :
    m.translate_virtual a =
      (m.pages (a >>> 13)).map (fun p => (p <<< 13) % 2 ^ 64 ||| a % 2 ^ 13)
    ∧ ∀ r, m.translate_virtual a = some r → r % 2 ^ 13 = a % 2 ^ 13 := by
  have hitem : extract_item a = a % 2 ^ 13 := by
    unfold extract_item
    rw [Nat.and_comm, and_item_mask_eq_mod]
  have hset : ∀ p, set_item (offset_page p) (extract_item a) =
      (p <<< 13) % 2 ^ 64 ||| a % 2 ^ 13 := by
    intro p
    unfold set_item
    rw [offset_page_and_mask, hitem, and_item_mask_eq_mod,
      Nat.mod_mod_of_dvd _ dvd_rfl]
    rfl
  have heq : m.translate_virtual a =
      (m.pages (a >>> 13)).map (fun p => (p <<< 13) % 2 ^ 64 ||| a % 2 ^ 13) := by
    unfold Memory.translate_virtual
    rw [extract_page_eq a h]
    cases hp : m.pages (a >>> 13) with
    | none => simp [hp]
    | some p => simp [hp, hset p]
  refine ⟨heq, ?_⟩
  intro r hr
  rw [heq] at hr
  cases hp : m.pages (a >>> 13) with
  | none => rw [hp] at hr; cases hr
  | some p =>
    rw [hp] at hr
    simp only [Option.map] at hr
    cases hr
    have hx : p <<< 13 % 2 ^ 64 % 2 ^ 13 = 0 := offset_page_mod p
    rw [or_low_mod _ _ hx, Nat.mod_mod_of_dvd _ dvd_rfl]

/-- Witness for claim C5 at the translation scenario: virtual page 10 with
item 10 under the scenario page table. -/
theorem c5_translate_virtual_witness :
    memPaged.translate_virtual 81930 =
      (memPaged.pages (81930 >>> 13)).map (fun p => (p <<< 13) % 2 ^ 64 ||| 81930 % 2 ^ 13)
    ∧ ∀ r, memPaged.translate_virtual 81930 = some r → r % 2 ^ 13 = 81930 % 2 ^ 13 :=
  c5_translate_virtual memPaged 81930 (by decide)

/-- The little-endian byte list of n bytes has length n. -/
theorem length_leBytes (n v : Nat) : (leBytes n v).length = n := by
  induction n generalizing v with
  | zero => rfl
  | succ n ih => simp [leBytes, ih]

/-- Taking a prefix of a little-endian byte list is the shorter byte list. -/
theorem take_leBytes (k n v : Nat) (h : k ≤ n) : (leBytes n v).take k = leBytes k v := by
  induction k generalizing n v with
  | zero => simp [leBytes]
  | succ k ih =>
    cases n with
    | zero => exact absurd h (by omega)
    | succ n =>
      simp only [leBytes, List.take_succ_cons]
      rw [ih n (v / 256) (Nat.succ_le_succ_iff.mp h)]

/-- Reassembling a little-endian byte list recovers the value reduced modulo
the byte capacity. -/
theorem fromLE_leBytes (n v : Nat) : fromLE (leBytes n v) = v % 256 ^ n := by
  induction n generalizing v with
  | zero => simp [leBytes, fromLE, Nat.mod_one]
  | succ n ih =>
    simp only [leBytes, fromLE, ih]
    have hpow : 256 * 256 ^ n = 256 ^ (n + 1) := by rw [Nat.pow_succ, Nat.mul_comm]
    rw [← Nat.mod_mul_right_div_self, hpow]
    have hmod : v % 256 ^ (n + 1) % 256 = v % 256 :=
      Nat.mod_mod_of_dvd v (dvd_pow_self 256 (Nat.succ_ne_zero n))
    calc v % 256 + 256 * (v % 256 ^ (n + 1) / 256)
        = v % 256 ^ (n + 1) % 256 + 256 * (v % 256 ^ (n + 1) / 256) := by rw [hmod]
      _ = v % 256 ^ (n + 1) := Nat.mod_add_div _ _

/-- Dropping a left component of known length from an append. -/
theorem drop_append_len (l1 l2 : List Nat) (a : Nat) (h : l1.length = a) :
    (l1 ++ l2).drop a = l2 := by
  subst h
  exact List.drop_left l1 l2

/-- Taking a left component of known length from an append. -/
theorem take_append_len (l1 l2 : List Nat) (k : Nat) (h : l1.length = k) :
    (l1 ++ l2).take k = l1 := by
  subst h
  exact List.take_left l1 l2

/-- Reading back the slice just written in the middle of a buffer, and the
preserved buffer length. -/
theorem write_slice_facts (B : List Nat) (a k q : Nat) (hk : k ≤ 8)
    (h : a + k ≤ B.length) :
    ((B.take a ++ (leBytes 8 q).take k ++
        B.drop (a + ((leBytes 8 q).take k).length)).drop a).take k = leBytes k q
    ∧ (B.take a ++ (leBytes 8 q).take k ++
        B.drop (a + ((leBytes 8 q).take k).length)).length = B.length := by
  have hbuf : ((leBytes 8 q).take k).length = k := by
    rw [take_leBytes k 8 q hk, length_leBytes]
  have hta : (B.take a).length = a := by
    simp [List.length_take]
    omega
  constructor
  · rw [List.append_assoc, drop_append_len _ _ _ hta,
      take_append_len _ _ _ hbuf, take_leBytes k 8 q hk]
  · simp [List.length_append, hta, hbuf, List.length_drop]
    omega

/-- Reading back the byte just set in a buffer. -/
theorem drop_set_take (B : List Nat) (a x : Nat) (ha : a < B.length) :
    ((B.set a x).drop a).take 1 = [x] := by
  have ha2 : a < (B.set a x).length := by simpa using ha
  rw [List.drop_eq_getElem_cons ha2]
  simp

/-- A validated in-bounds read returns the tagged value of the addressed
slice. -/
theorem get_of_slice (m : Memory) (frame : Frame)
    (hpt : m.process_test_frame frame false = Except.ok frame)
    (h : frame.address + frame.size.size ≤ m.bytes.length) :
    m.get frame false = Except.ok (Number.with_size frame.size
      (fromLE ((m.bytes.drop frame.address).take frame.size.size))) := by
  unfold Memory.get
  have hread : read_bytes_into_buffer m.bytes frame.address frame.size.size =
      frame.size.size := by
    unfold read_bytes_into_buffer
    omega
  simp [hpt, hread]

/-- Claim C6: for every size and every aligned frame that lies inside the
configured bound and the underlying buffer, a non virtual set followed by a
get of the same frame returns the written value truncated to the frame
size. -/
theorem c6_set_get_round_trip (m : Memory) (frame : Frame) (value : Number)
    (hal : frame.is_aligned = true)
    (hbound : match m.max_address with
      | none => True
      | some ma => frame.max_address ≤ ma)
    (hlen : frame.address + frame.size.size ≤ m.bytes.length) :
    ∃ m2, m.set frame false value = Except.ok m2 ∧
      m2.get frame false =
        Except.ok (Number.with_size frame.size (value.quad % 2 ^ (8 * frame.size.size))) := by
  have hpt : ∀ (mm : Memory), mm.max_address = m.max_address →
      mm.process_test_frame frame false = Except.ok frame := by
    intro mm hma
    unfold Memory.process_test_frame
    cases hma2 : m.max_address with
    | none => simp [hal, hma, hma2]
    | some ma =>
      simp only [hma2] at hbound
      simp [hal, hma, hma2, Nat.not_lt.mpr hbound]
  obtain ⟨addr, sz⟩ := frame
  cases sz with
  | Byte =>
    have hlt : addr < m.bytes.length := by
      simp only [NumberSize.size] at hlen
      omega
    refine ⟨{ m with bytes := m.bytes.set addr (value.quad % 256) }, ?_, ?_⟩
    · unfold Memory.set
      simp [hpt, hlt]
    · have hlen2 : (m.bytes.set addr (value.quad % 256)).length = m.bytes.length :=
        List.length_set m.bytes addr (value.quad % 256)
      rw [get_of_slice { m with bytes := m.bytes.set addr (value.quad % 256) } (Frame.mk addr NumberSize.Byte) (hpt { m with bytes := m.bytes.set addr (value.quad % 256) } rfl) (by show addr + 1 ≤ (m.bytes.set addr (value.quad % 256)).length; omega)]
      rw [show ({ m with bytes := m.bytes.set addr (value.quad % 256) } : Memory).bytes =
        m.bytes.set addr (value.quad % 256) from rfl]
      simp only [NumberSize.size]
      rw [drop_set_take m.bytes addr (value.quad % 256) hlt]
      norm_num [fromLE, Number.with_size]
  | Word =>
    have hlen' : addr + 2 ≤ m.bytes.length := by
      simp only [NumberSize.size] at hlen
      omega
    obtain ⟨hslice, hlen2⟩ :=
      write_slice_facts m.bytes addr 2 value.quad (by norm_num) hlen'
    have hbuflen : ((leBytes 8 value.quad).take 2).length = 2 := by
      rw [take_leBytes 2 8 value.quad (by norm_num), length_leBytes]
    rw [hbuflen] at hslice hlen2
    refine ⟨{ m with bytes := m.bytes.take addr ++ (leBytes 8 value.quad).take 2 ++ m.bytes.drop (addr + 2) }, ?_, ?_⟩
    · unfold Memory.set
      simp only [hpt, Number.quad_buffer, NumberSize.size, hbuflen]
      rw [if_pos hlen']
    · rw [get_of_slice { m with bytes := m.bytes.take addr ++ (leBytes 8 value.quad).take 2 ++ m.bytes.drop (addr + 2) } (Frame.mk addr NumberSize.Word) (hpt { m with bytes := m.bytes.take addr ++ (leBytes 8 value.quad).take 2 ++ m.bytes.drop (addr + 2) } rfl) (by show addr + 2 ≤ (m.bytes.take addr ++ (leBytes 8 value.quad).take 2 ++ m.bytes.drop (addr + 2)).length; omega)]
      simp only [NumberSize.size]
      rw [hslice, fromLE_leBytes]
      norm_num [Number.with_size]
  | Dual =>
    have hlen' : addr + 4 ≤ m.bytes.length := by
      simp only [NumberSize.size] at hlen
      omega
    obtain ⟨hslice, hlen2⟩ :=
      write_slice_facts m.bytes addr 4 value.quad (by norm_num) hlen'
    have hbuflen : ((leBytes 8 value.quad).take 4).length = 4 := by
      rw [take_leBytes 4 8 value.quad (by norm_num), length_leBytes]
    rw [hbuflen] at hslice hlen2
    refine ⟨{ m with bytes := m.bytes.take addr ++ (leBytes 8 value.quad).take 4 ++ m.bytes.drop (addr + 4) }, ?_, ?_⟩
    · unfold Memory.set
      simp only [hpt, Number.quad_buffer, NumberSize.size, hbuflen]
      rw [if_pos hlen']
    · rw [get_of_slice { m with bytes := m.bytes.take addr ++ (leBytes 8 value.quad).take 4 ++ m.bytes.drop (addr + 4) } (Frame.mk addr NumberSize.Dual) (hpt { m with bytes := m.bytes.take addr ++ (leBytes 8 value.quad).take 4 ++ m.bytes.drop (addr + 4) } rfl) (by show addr + 4 ≤ (m.bytes.take addr ++ (leBytes 8 value.quad).take 4 ++ m.bytes.drop (addr + 4)).length; omega)]
      simp only [NumberSize.size]
      rw [hslice, fromLE_leBytes]
      norm_num [Number.with_size]
  | Quad =>
    have hlen' : addr + 8 ≤ m.bytes.length := by
      simp only [NumberSize.size] at hlen
      omega
    obtain ⟨hslice, hlen2⟩ :=
      write_slice_facts m.bytes addr 8 value.quad (by norm_num) hlen'
    have hbuflen : ((leBytes 8 value.quad).take 8).length = 8 := by
      rw [take_leBytes 8 8 value.quad (by norm_num), length_leBytes]
    rw [hbuflen] at hslice hlen2
    refine ⟨{ m with bytes := m.bytes.take addr ++ (leBytes 8 value.quad).take 8 ++ m.bytes.drop (addr + 8) }, ?_, ?_⟩
    · unfold Memory.set
      simp only [hpt, Number.quad_buffer, NumberSize.size, hbuflen]
      rw [if_pos hlen']
    · rw [get_of_slice { m with bytes := m.bytes.take addr ++ (leBytes 8 value.quad).take 8 ++ m.bytes.drop (addr + 8) } (Frame.mk addr NumberSize.Quad) (hpt { m with bytes := m.bytes.take addr ++ (leBytes 8 value.quad).take 8 ++ m.bytes.drop (addr + 8) } rfl) (by show addr + 8 ≤ (m.bytes.take addr ++ (leBytes 8 value.quad).take 8 ++ m.bytes.drop (addr + 8)).length; omega)]
      simp only [NumberSize.size]
      rw [hslice, fromLE_leBytes]
      norm_num [Number.with_size]

/-- Witness for claim C6: writing the 64-bit value 1001 at address 0 of an
eight byte scratch buffer and reading it back returns 1001 reduced modulo
2 to the 64. -/
theorem c6_set_get_round_trip_witness :
    ∃ m2, memScratch.set (Frame.mk 0 NumberSize.Quad) false (Number.Quad 1001) = Except.ok m2 ∧
      m2.get (Frame.mk 0 NumberSize.Quad) false =
        Except.ok (Number.with_size NumberSize.Quad (1001 % 2 ^ 64)) :=
  c6_set_get_round_trip memScratch (Frame.mk 0 NumberSize.Quad) (Number.Quad 1001)
    (by decide) (by trivial) (by decide)

/-- Claim C10: whenever decoding succeeds, the decoded instruction's top level
width field is the byte size, whatever width exponent the stream carried. -/
theorem c10_width_always_byte {Ext Dyn : Type} (env : CodecEnv Ext Dyn)
    (stream : List Nat) (instr : Instruction Ext Dyn)
    (h : Instruction.from_encoded env stream = some instr) :
    instr.width = AbsoluteType.Byte := by
  unfold Instruction.from_encoded at h
  repeat' (first | split at h | simp only [] at h)
  all_goals (try cases h)
  all_goals rfl

/-- Witness for claim C10: the trivial codec environment decodes two zero
bytes into an instruction whose width is the byte size. -/
theorem c10_width_always_byte_witness :
    Instruction.from_encoded envUnit [0, 0] = some instrUnit
    ∧ instrUnit.width = AbsoluteType.Byte :=
  ⟨rfl, c10_width_always_byte envUnit [0, 0] instrUnit rfl⟩
